import Mathlib

/-!
Verification of the grid-inflation subsystem of `bweston92/testgrid`
(`pkg/updater`).  The repository ships only the test file
`pkg/updater/inflate_test.go`; the implementation `inflate.go` is absent,
so the four operations (`inflateResults`, `inflateMetric`, `inflateRow`,
`inflateGrid`) are modelled from the specification (spec.md §4 and §8),
with the concrete expectations of `inflate_test.go` as the oracle wherever
the spec's prose and its scenarios disagree.

Representation choices:
* result codes are `Int` (the Go `int32` ordinals of `statepb.Row_Result`;
  the spec fixes `NO_RESULT=0`, `RUNNING=4` and says only the
  finished/unfinished partition is semantically required);
* column start times are `Int` milliseconds (the Go field is a `float64`
  that holds integral millisecond values in every observed datum); window
  bounds are `Int` seconds (Go `time.Time` via `.Unix()`);
* metric values are a type parameter `α` (the Go `float64` values are
  only moved around, never computed with);
* Go maps are insertion-ordered association lists with overwriting insert.
-/

namespace Testgrid

/-- Result ordinal for `statepb.Row_NO_RESULT` (spec §3: `NO_RESULT=0`). -/
def noResultCode : Int := 0

/-- Result ordinal for `statepb.Row_PASS` (spec §3: `PASS=1`). -/
def passCode : Int := 1

/-- Result ordinal for `statepb.Row_PASS_WITH_SKIPS` (external schema: 3). -/
def passWithSkipsCode : Int := 3

/-- Result ordinal for `statepb.Row_RUNNING` (spec §3: `RUNNING=4`). -/
def runningCode : Int := 4

/-- Result ordinal for `statepb.Row_FAIL` (external schema: 12). -/
def failCode : Int := 12

/-- Result ordinal for `statepb.Row_FLAKY` (external schema: 13). -/
def flakyCode : Int := 13

/-- Spec §3 / glossary: a finished result is any code other than
`NO_RESULT` or `RUNNING`. -/
def isFinished (r : Int) : Bool :=
  !(r == noResultCode || r == runningCode)

/-- `statepb.Column` as used by the core (spec §6 input schema). -/
structure Column where
  build : String
  name : String
  started : Int
  extra : List String
  hotlistIds : String
deriving DecidableEq, Repr

/-- `statepb.Metric` (spec §6 input schema), values abstracted to `α`. -/
structure Metric (α : Type) where
  name : String
  indices : List Int
  values : List α
deriving DecidableEq, Repr

/-- `statepb.Row` (spec §6 input schema). -/
structure Row (α : Type) where
  name : String
  results : List Int
  cellIds : List String
  messages : List String
  icons : List String
  metric : List String
  metrics : List (Metric α)
deriving DecidableEq, Repr

/-- `statepb.Grid` (spec §6 input schema). -/
structure Grid (α : Type) where
  columns : List Column
  rows : List (Row α)
deriving DecidableEq, Repr

/-- The `cell` record produced per (row, column) (spec §3); `metrics` is the
Go `map[string]float64` as an insertion-ordered association list. -/
structure Cell (α : Type) where
  result : Int := noResultCode
  cellID : String := ""
  message : String := ""
  icon : String := ""
  metrics : List (String × α) := []
deriving DecidableEq, Repr

/-- The Go zero value of `cell` (all-default; spec §4.3 step 5). -/
def zeroCell (α : Type) : Cell α := {}

/-- The `inflatedColumn` record (spec §3): the original column plus the
row-name → cell map (row insertion order). -/
structure InflatedColumn (α : Type) where
  column : Column
  cells : List (String × Cell α)
deriving DecidableEq, Repr

/-- Association-list lookup (Go map read). -/
def lookupAL {α : Type} (m : List (String × α)) (n : String) : Option α :=
  match m with
  | [] => none
  | p :: rest => if p.1 = n then some p.2 else lookupAL rest n

/-- Association-list insert with overwrite (Go map write): replaces the
existing binding in place, else appends. -/
def insertAL {α : Type} (m : List (String × α)) (n : String) (v : α) :
    List (String × α) :=
  match m with
  | [] => [(n, v)]
  | p :: rest => if p.1 = n then (n, v) :: rest else p :: insertAL rest n v

/-- Modelled from the spec: the result expander (spec §4.1), the body of the
absent `inflateResults` of `pkg/updater/inflate.go`.  The flat stream is read
as `(code, count)` pairs; each pair contributes `count` copies of `code`.
Odd-length input and a negative count are malformed and signal a decoding
error (spec §4.1 Errors, §7). -/
def inflateResults : List Int → Except String (List Int)
  | [] => Except.ok []
  | [_] => Except.error "odd-length run-length result stream"
  | code :: count :: rest =>
    if count < 0 then Except.error "negative run-length count"
    else
      match inflateResults rest with
      | Except.error e => Except.error e
      | Except.ok tail => Except.ok (List.replicate count.toNat code ++ tail)

/-- Overwrite the values at the front of `l` with `vs` (extending `l` when it
is too short); positions of `l` past `vs` are kept. -/
def overwriteFront {α : Type} : List (Option α) → List α → List (Option α)
  | l, [] => l
  | [], v :: vs => some v :: overwriteFront [] vs
  | _ :: l, v :: vs => some v :: overwriteFront l vs

/-- Write the run `vs` into `l` starting at position `start`, padding with
absent values when `l` is shorter than `start` (spec §4.2: later writes
overwrite earlier ones). -/
def placeRun {α : Type} : List (Option α) → Nat → List α → List (Option α)
  | l, 0, vs => overwriteFront l vs
  | [], start + 1, vs => none :: placeRun [] start vs
  | x :: l, start + 1, vs => x :: placeRun l start vs

/-- Modelled from the spec: the metric expander loop (spec §4.2), the body of
the absent `inflateMetric` of `pkg/updater/inflate.go`.  The sparse index
stream is read as `(start, run)` pairs; a pair with `run = 0` is skipped
(spec §4.2: it covers no position and consumes no value); every other pair
writes the next `run` values consumed from the value stream at positions
`[start, start+run)`.  Exhausting the value stream before a run is
satisfied is a metric under-run error (spec §4.2, §7); an odd-length index
stream is malformed. -/
def inflateMetricAux {α : Type} :
    List (Option α) → List Int → List α → Except String (List (Option α))
  | acc, [], _ => Except.ok acc
  | _, [_], _ => Except.error "odd-length sparse index stream"
  | acc, start :: run :: rest, vs =>
    if run.toNat = 0 then inflateMetricAux acc rest vs
    else if vs.length < run.toNat then Except.error "metric under-run"
    else
      inflateMetricAux (placeRun acc start.toNat (vs.take run.toNat)) rest
        (vs.drop run.toNat)

/-- Modelled from the spec: the metric expander (spec §4.2, operation
`expandMetric` of §6), the absent `inflateMetric` of
`pkg/updater/inflate.go`. -/
def inflateMetric {α : Type} (m : Metric α) : Except String (List (Option α)) :=
  inflateMetricAux [] m.indices m.values

/-- Sequential error-propagating map (the Go pattern of starting each
producer in turn and aborting at the first failure). -/
def mapExcept {α β : Type} (f : α → Except String β) :
    List α → Except String (List β)
  | [] => Except.ok []
  | x :: l =>
    match f x with
    | Except.error e => Except.error e
    | Except.ok b =>
      match mapExcept f l with
      | Except.error e => Except.error e
      | Except.ok bs => Except.ok (b :: bs)

/-- Modelled from the spec: effective metric names (spec §4.3).  A metric
with a non-empty local name uses it; the `k`-th unnamed metric uses the
row's `k`-th default name (`Row.Metric`); a metric with neither is unnamed
(`none`) and is dropped. -/
def resolveNames {α : Type} (defaults : List String) :
    List (Metric α) → Nat → List (Option String × Metric α)
  | [], _ => []
  | m :: ms, k =>
    if m.name ≠ "" then (some m.name, m) :: resolveNames defaults ms k
    else
      match defaults[k]? with
      | some d => (some d, m) :: resolveNames defaults ms (k + 1)
      | none => (none, m) :: resolveNames defaults ms (k + 1)

/-- Modelled from the spec: expand every metric of a row (spec §4.3 step 3):
each metric is expanded by the metric expander (errors abort the row, spec
§7) and paired with its effective name; unnamed metrics are dropped. -/
def expandMetrics {α : Type} (defaults : List String) (ms : List (Metric α)) :
    Except String (List (String × List (Option α))) :=
  match mapExcept (fun p => (inflateMetric p.2).map (fun dense => (p.1, dense)))
      (resolveNames defaults ms 0) with
  | Except.error e => Except.error e
  | Except.ok named =>
    Except.ok (named.filterMap (fun p => p.1.map (fun n => (n, p.2))))

/-- One step of the metric map construction: insert the metric's value at
position `i` under its effective name when present. -/
def metricStep {α : Type} (i : Nat) (m : List (String × α))
    (p : String × List (Option α)) : List (String × α) :=
  match p.2.getD i none with
  | some v => insertAL m p.1 v
  | none => m

/-- The cell's metric map at position `i`: the value each expanded metric
carries at `i`, when present, inserted under its effective name in metric
order (later metrics overwrite, spec §4.3 metric map rule). -/
def metricsAt {α : Type} (named : List (String × List (Option α))) (i : Nat) :
    List (String × α) :=
  named.foldl (metricStep i) []

/-- Modelled from the spec: assembly of one cell (spec §4.3, with the
diagnostic indexing pinned by Scenario E / `TestInflateRow`): position `i`
carries result `res`; the cell id is positional (`cellIds[i]`, missing
entries read as `""`); message and icon are consumed from a cursor `k` that
counts only finished positions (`inflate_test.go` "only finished columns
contain icons and messages": the `FAIL` at position 2 carries `icons[0]`)
and are suppressed (empty) at unfinished positions (spec §4.3 step 4). -/
def buildCell {α : Type} (row : Row α) (named : List (String × List (Option α)))
    (i k : Nat) (res : Int) : Cell α :=
  { result := res
    cellID := row.cellIds.getD i ""
    message := if isFinished res then row.messages.getD k "" else ""
    icon := if isFinished res then row.icons.getD k "" else ""
    metrics := metricsAt named i }

/-- Number of finished results in a prefix of the expanded result stream:
the diagnostic cursor of `buildCell`. -/
def finCount (rs : List Int) : Nat :=
  rs.countP (fun r => isFinished r)

/-- Modelled from the spec: the row inflater (spec §4.3, operation
`inflateRow` of §6), the absent `inflateRow` of `pkg/updater/inflate.go`.
Expands the row's results and metrics (decoding errors abort the row, spec
§7) and assembles one cell per expanded position. -/
def inflateRow {α : Type} (row : Row α) : Except String (List (Cell α)) :=
  match inflateResults row.results with
  | Except.error e => Except.error e
  | Except.ok rs =>
    match expandMetrics row.metric row.metrics with
    | Except.error e => Except.error e
    | Except.ok named =>
      Except.ok (rs.enum.map (fun p => buildCell row named p.1 (finCount (rs.take p.1)) p.2))

/-- Modelled from the spec: one row's inflation checked against the column
count `n`; a row whose dense length disagrees with the column count is a
row-length mismatch error (spec §7). -/
def inflateRowChecked {α : Type} (n : Nat) (r : Row α) :
    Except String (String × List (Cell α)) :=
  match inflateRow r with
  | Except.error e => Except.error e
  | Except.ok cs =>
    if cs.length = n then Except.ok (r.name, cs)
    else Except.error "row-length mismatch"

/-- Modelled from the spec: start all per-row inflaters (spec §4.4 step 1);
any row error aborts grid inflation (spec §4.4 failure semantics, §7). -/
def inflateGridRows {α : Type} (g : Grid α) :
    Except String (List (String × List (Cell α))) :=
  mapExcept (inflateRowChecked g.columns.length) g.rows

/-- The cell map of the column at index `i` (spec §4.4 step 2c): each row
contributes its cell at `i` under the row name, except that the zero cell is
elided to keep the map sparse. -/
def cellsAt {α : Type} [DecidableEq α] (rowCells : List (String × List (Cell α)))
    (i : Nat) : List (String × Cell α) :=
  rowCells.foldr
    (fun p m =>
      match p.2[i]? with
      | some c => if c = zeroCell α then m else (p.1, c) :: m
      | none => m)
    []

/-- Whether the column survives the window: at or after `earliest` (exact
millisecond comparison, Scenario D) and not past the `latest` cutoff.  The
upper cutoff follows Scenario C / `TestInflateGrid` "drop latest columns":
the comparison is at second granularity, so a start of `latest·1000 + 999`
is kept while `latest·1000 + 1000` is dropped. -/
def inWindow (earliest latest : Int) (c : Column) : Bool :=
  decide (earliest * 1000 ≤ c.started) && decide (c.started < (latest + 1) * 1000)

/-- Modelled from the spec: the column walk (spec §4.4 step 2).  Columns past
the `latest` cutoff are dropped but the walk continues (step 2a); at the
first column before `earliest` the walk stops, relying on the descending
column order (step 2b); surviving columns emit their inflated column
(step 2c). -/
def walkColumns {α : Type} [DecidableEq α]
    (rowCells : List (String × List (Cell α))) (earliest latest : Int) :
    List Column → Nat → List (InflatedColumn α)
  | [], _ => []
  | c :: cs, i =>
    if c.started ≥ (latest + 1) * 1000 then walkColumns rowCells earliest latest cs (i + 1)
    else if c.started < earliest * 1000 then []
    else
      { column := c, cells := cellsAt rowCells i } ::
        walkColumns rowCells earliest latest cs (i + 1)

/-- Modelled from the spec: the grid inflater (spec §4.4, operation
`inflateGrid` of §6), the absent `inflateGrid` of
`pkg/updater/inflate.go`.  `earliest` and `latest` are wall-clock instants
in whole seconds (Go `time.Time.Unix()`); column start times are compared
in milliseconds (spec §4.4 time units).  Row decoding errors abort grid
inflation with a single error and no partial list (spec §4.4 failure
semantics, §7). -/
def inflateGrid {α : Type} [DecidableEq α] (g : Grid α) (earliest latest : Int) :
    Except String (List (InflatedColumn α)) :=
  match inflateGridRows g with
  | Except.error e => Except.error e
  | Except.ok rowCells => Except.ok (walkColumns rowCells earliest latest g.columns 0)

/-! ## Run-length expansion (spec §4.1) -/

/-- Run-length pairs flattened into the wire form of `Row.Results`. -/
def flatPairs : List (Int × Int) → List Int
  | [] => []
  | p :: ps => p.1 :: p.2 :: flatPairs ps

/-- Reference expansion of run-length pairs: each code repeated `count`
times, in pair order. -/
def expandPairs : List (Int × Int) → List Int
  | [] => []
  | p :: ps => List.replicate p.2.toNat p.1 ++ expandPairs ps

lemma inflateResults_flatPairs (ps : List (Int × Int))
    (hpos : ∀ p ∈ ps, 0 ≤ p.2) :
    inflateResults (flatPairs ps) = Except.ok (expandPairs ps) := by
  induction ps with
  | nil => rfl
  | cons p ps ih =>
    have hp : ¬ p.2 < 0 := not_lt.mpr (hpos p (by simp))
    have hrest := ih (fun q hq => hpos q (by simp [hq]))
    simp [flatPairs, inflateResults, hp, hrest, expandPairs]

/-- C6: for every input sequence of even length interpreted as pairs
`(code, count)` with non-negative counts, `expandResults` (the source's
`inflateResults`) yields each code repeated `count` times, in pair order,
and the total output length is the sum of the counts (a zero count
contributes nothing, as `List.replicate 0` is empty). -/
theorem inflateResults_expands_pairs (ps : List (Int × Int))
    (hpos : ∀ p ∈ ps, 0 ≤ p.2) :
    inflateResults (flatPairs ps) = Except.ok (expandPairs ps) ∧
      (expandPairs ps).length = (ps.map (fun p => p.2.toNat)).sum := by
  refine ⟨inflateResults_flatPairs ps hpos, ?_⟩
  clear hpos
  induction ps with
  | nil => rfl
  | cons p ps ih => simp [expandPairs, ih]

/-- Witness for C6 at the first documented example of `TestInflateResults`:
`[NO_RESULT, 3, PASS, 4]`, including a zero-count pair. -/
theorem inflateResults_expands_pairs_witness :
    inflateResults (flatPairs [((0 : Int), (3 : Int)), (1, 4), (12, 0)]) =
        Except.ok (expandPairs [((0 : Int), (3 : Int)), (1, 4), (12, 0)]) ∧
      (expandPairs [((0 : Int), (3 : Int)), (1, 4), (12, 0)]).length =
        ([((0 : Int), (3 : Int)), (1, 4), (12, 0)].map (fun p => p.2.toNat)).sum :=
  inflateResults_expands_pairs _ (by decide)

/-! ## Scenario E (spec §8, `TestInflateRow`) -/

/-- The row of Scenario E (`TestInflateRow` "only finished columns contain
icons and messages"): run-length results
`[NO_RESULT ×2, FAIL ×1, NO_RESULT ×2, FLAKY ×2, NO_RESULT ×1]`, eight
blank cell ids, three icons and three messages. -/
def scenERow : Row Rat :=
  { name := ""
    results := [noResultCode, 2, failCode, 1, noResultCode, 2, flakyCode, 2,
      noResultCode, 1]
    cellIds := List.replicate 8 ""
    messages := ["fail", "flake-first", "flake-second"]
    icons := ["F1", "~1", "~2"]
    metric := []
    metrics := [] }

/-- C4: on the Scenario E row, `inflateRow` emits zero cells at positions
0, 1, 3, 4 and 7, the cell `{FAIL, icon "F1", message "fail"}` at position
2, and `{FLAKY, icon "~1"/"~2", message "flake-first"/"flake-second"}` at
positions 5 and 6. -/
theorem inflateRow_scenE :
    inflateRow scenERow = Except.ok
      [{}, {},
        { result := failCode, icon := "F1", message := "fail" },
        {}, {},
        { result := flakyCode, icon := "~1", message := "flake-first" },
        { result := flakyCode, icon := "~2", message := "flake-second" },
        {}] := by
  rfl

/-! ## Positional structure of `inflateRow` (spec §4.3) -/

lemma inflateRow_cells {α : Type} (row : Row α) (rs : List Int)
    (named : List (String × List (Option α)))
    (hrs : inflateResults row.results = Except.ok rs)
    (hnm : expandMetrics row.metric row.metrics = Except.ok named) :
    inflateRow row =
      Except.ok (rs.enum.map
        (fun p => buildCell row named p.1 (finCount (rs.take p.1)) p.2)) := by
  simp [inflateRow, hrs, hnm]

lemma inflateRow_getElem {α : Type} (row : Row α) (rs : List Int)
    (named : List (String × List (Option α))) (cs : List (Cell α))
    (hrs : inflateResults row.results = Except.ok rs)
    (hnm : expandMetrics row.metric row.metrics = Except.ok named)
    (hcs : inflateRow row = Except.ok cs)
    (i : Nat) (c : Cell α) (hc : cs[i]? = some c) :
    ∃ res, rs[i]? = some res ∧
      c = buildCell row named i (finCount (rs.take i)) res := by
  rw [inflateRow_cells row rs named hrs hnm] at hcs
  obtain rfl : _ = cs := Except.ok.inj hcs
  rw [List.getElem?_map, List.getElem?_enum] at hc
  cases h : rs[i]? with
  | none => rw [h] at hc; simp at hc
  | some res =>
    rw [h] at hc
    simp only [Option.map] at hc
    exact ⟨res, rfl, (Option.some.inj hc).symm⟩

/-- The dense result stream of the Scenario E row. -/
def scenEResults : List Int := [0, 0, 12, 0, 0, 13, 13, 0]

/-- The cells `inflateRow` emits for the Scenario E row. -/
def scenECells : List (Cell Rat) :=
  [{}, {},
    { result := failCode, icon := "F1", message := "fail" },
    {}, {},
    { result := flakyCode, icon := "~1", message := "flake-first" },
    { result := flakyCode, icon := "~2", message := "flake-second" },
    {}]

/-- C3 is false as stated: on the Scenario E row of `TestInflateRow`, the
cell at position 5 carries message "flake-first", but the positional entry
`messages[5]` (a missing entry reading as the empty string) is `""` — the
diagnostic arrays are not positional to all expanded cells. -/
theorem inflateRow_positional_diag_cex :
    ((inflateRow scenERow).toOption.bind (fun cs => cs[5]?)).map
        (fun c => c.message) = some "flake-first" ∧
      scenERow.messages.getD 5 "" = "" ∧ "flake-first" ≠ "" := by
  refine ⟨rfl, rfl, by decide⟩

/-- C3 (amended): the cell at expanded position `i` carries the positional
cell id `cellIds[i]` (a missing array reads as empty strings); when the
result is finished it carries `messages[k]` and `icons[k]`, where `k`
counts the finished results before position `i` (missing entries read as
empty strings); when the result is unfinished the message and icon are
empty. -/
theorem inflateRow_diagnostics (α : Type) (row : Row α) (rs : List Int)
    (named : List (String × List (Option α))) (cs : List (Cell α))
    (hrs : inflateResults row.results = Except.ok rs)
    (hnm : expandMetrics row.metric row.metrics = Except.ok named)
    (hcs : inflateRow row = Except.ok cs)
    (i : Nat) (c : Cell α) (hc : cs[i]? = some c) :
    c.cellID = row.cellIds.getD i "" ∧
      (isFinished c.result = true →
        c.message = row.messages.getD (finCount (rs.take i)) "" ∧
          c.icon = row.icons.getD (finCount (rs.take i)) "") ∧
      (isFinished c.result = false → c.message = "" ∧ c.icon = "") := by
  obtain ⟨res, hres, rfl⟩ :=
    inflateRow_getElem row rs named cs hrs hnm hcs i c hc
  cases hfin : isFinished res with
  | true => simp [buildCell, hfin]
  | false => simp [buildCell, hfin]

/-- Witness for the amended C3 at position 2 of the Scenario E row. -/
theorem inflateRow_diagnostics_witness :
    (({ result := failCode, icon := "F1", message := "fail" } : Cell Rat)).cellID =
        scenERow.cellIds.getD 2 "" ∧
      (isFinished ({ result := failCode, icon := "F1", message := "fail" } :
            Cell Rat).result = true →
        ({ result := failCode, icon := "F1", message := "fail" } :
            Cell Rat).message = scenERow.messages.getD (finCount (scenEResults.take 2)) "" ∧
          ({ result := failCode, icon := "F1", message := "fail" } :
              Cell Rat).icon = scenERow.icons.getD (finCount (scenEResults.take 2)) "") ∧
      (isFinished ({ result := failCode, icon := "F1", message := "fail" } :
            Cell Rat).result = false →
        ({ result := failCode, icon := "F1", message := "fail" } :
            Cell Rat).message = "" ∧
          ({ result := failCode, icon := "F1", message := "fail" } :
              Cell Rat).icon = "") :=
  inflateRow_diagnostics Rat scenERow scenEResults [] scenECells rfl rfl rfl 2
    ({ result := failCode, icon := "F1", message := "fail" }) rfl

/-- C5: every cell `inflateRow` emits for an unfinished result (`NO_RESULT`
or `RUNNING`) has empty message and icon, while the positional cell id and
the metric values present at that position are kept. -/
theorem inflateRow_unfinished_suppression (α : Type) (row : Row α)
    (rs : List Int) (named : List (String × List (Option α)))
    (cs : List (Cell α))
    (hrs : inflateResults row.results = Except.ok rs)
    (hnm : expandMetrics row.metric row.metrics = Except.ok named)
    (hcs : inflateRow row = Except.ok cs)
    (i : Nat) (c : Cell α) (hc : cs[i]? = some c)
    (hnf : isFinished c.result = false) :
    c.message = "" ∧ c.icon = "" ∧ c.cellID = row.cellIds.getD i "" ∧
      c.metrics = metricsAt named i := by
  obtain ⟨res, hres, rfl⟩ :=
    inflateRow_getElem row rs named cs hrs hnm hcs i c hc
  simp only [buildCell] at hnf ⊢
  simp [hnf]

/-- Witness for C5 at position 0 of the Scenario E row (a `NO_RESULT`
cell). -/
theorem inflateRow_unfinished_suppression_witness :
    (({} : Cell Rat)).message = "" ∧ (({} : Cell Rat)).icon = "" ∧
      (({} : Cell Rat)).cellID = scenERow.cellIds.getD 0 "" ∧
      (({} : Cell Rat)).metrics = metricsAt [] 0 :=
  inflateRow_unfinished_suppression Rat scenERow scenEResults [] scenECells
    rfl rfl rfl 0 {} rfl rfl

/-! ## Metric naming (spec §4.3, claim C8) -/

lemma resolveNames_getElem {α : Type} (defaults : List String)
    (ms : List (Metric α)) (k j : Nat) (m : Metric α)
    (hm : ms[j]? = some m) :
    (resolveNames defaults ms k)[j]? =
      some
        (if m.name ≠ "" then some m.name
          else defaults[k + (ms.take j).countP (fun mm => mm.name = "")]?,
          m) := by
  induction ms generalizing j k with
  | nil => simp at hm
  | cons m0 ms ih =>
    by_cases h0 : m0.name = ""
    · have hstep : resolveNames defaults (m0 :: ms) k =
          (defaults[k]?, m0) :: resolveNames defaults ms (k + 1) := by
        cases hd : defaults[k]? with
        | none => simp [resolveNames, h0, hd]
        | some d => simp [resolveNames, h0, hd]
      cases j with
      | zero =>
        have hm0 : m0 = m := by simpa using hm
        subst hm0
        simp [hstep, h0]
      | succ j =>
        have hm' : ms[j]? = some m := by simpa using hm
        have harith : k + 1 + (ms.take j).countP (fun mm => mm.name = "") =
            k + ((m0 :: ms).take (j + 1)).countP (fun mm => mm.name = "") := by
          rw [List.take_succ_cons, List.countP_cons]
          simp [h0]
          omega
        rw [hstep, List.getElem?_cons_succ, ih (k + 1) j hm', harith]
    · have hstep : resolveNames defaults (m0 :: ms) k =
          (some m0.name, m0) :: resolveNames defaults ms k := by
        simp [resolveNames, h0]
      cases j with
      | zero =>
        have hm0 : m0 = m := by simpa using hm
        subst hm0
        simp [hstep, h0]
      | succ j =>
        have hm' : ms[j]? = some m := by simpa using hm
        have harith : k + (ms.take j).countP (fun mm => mm.name = "") =
            k + ((m0 :: ms).take (j + 1)).countP (fun mm => mm.name = "") := by
          simp [List.countP_cons, h0]
        rw [hstep, List.getElem?_cons_succ, ih k j hm', harith]

lemma mapExcept_ok_getElem {α β : Type} (f : α → Except String β)
    (l : List α) (out : List β) (h : mapExcept f l = Except.ok out)
    (j : Nat) (a : α) (ha : l[j]? = some a) :
    ∃ b, f a = Except.ok b ∧ out[j]? = some b := by
  induction l generalizing out j with
  | nil => simp at ha
  | cons x l ih =>
    simp only [mapExcept] at h
    cases hx : f x with
    | error e => rw [hx] at h; exact absurd h (by simp)
    | ok b =>
      rw [hx] at h
      cases hrest : mapExcept f l with
      | error e => rw [hrest] at h; exact absurd h (by simp)
      | ok bs =>
        rw [hrest] at h
        obtain rfl : b :: bs = out := Except.ok.inj h
        cases j with
        | zero =>
          obtain rfl : x = a := by simpa using ha
          exact ⟨b, hx, by simp⟩
        | succ j =>
          have ha' : l[j]? = some a := by simpa using ha
          obtain ⟨b2, hb2, hout⟩ := ih bs hrest j ha'
          exact ⟨b2, hb2, by simpa using hout⟩

lemma expandMetrics_ok {α : Type} (defaults : List String)
    (ms : List (Metric α)) (named : List (String × List (Option α)))
    (h : expandMetrics defaults ms = Except.ok named) :
    ∃ out,
      mapExcept (fun p => (inflateMetric p.2).map (fun dense => (p.1, dense)))
          (resolveNames defaults ms 0) = Except.ok out ∧
        named = out.filterMap (fun p => p.1.map (fun n => (n, p.2))) := by
  simp only [expandMetrics] at h
  cases hm : mapExcept (fun p => (inflateMetric p.2).map (fun dense => (p.1, dense)))
      (resolveNames defaults ms 0) with
  | error e => rw [hm] at h; exact absurd h (by simp)
  | ok out =>
    rw [hm] at h
    exact ⟨out, rfl, (Except.ok.inj h).symm⟩

lemma lookupAL_insertAL_self {α : Type} (m : List (String × α)) (n : String)
    (v : α) : lookupAL (insertAL m n v) n = some v := by
  induction m with
  | nil => simp [insertAL, lookupAL]
  | cons p rest ih =>
    by_cases hp : p.1 = n
    · simp [insertAL, lookupAL, hp]
    · simp [insertAL, lookupAL, hp, ih]

lemma lookupAL_insertAL_ne {α : Type} (m : List (String × α)) (n n1 : String)
    (v : α) (h : n1 ≠ n) : lookupAL (insertAL m n1 v) n = lookupAL m n := by
  induction m with
  | nil => simp [insertAL, lookupAL, h]
  | cons p rest ih =>
    by_cases hp : p.1 = n1
    · simp [insertAL, lookupAL, hp, h]
    · simp only [insertAL, hp, if_false, lookupAL, ih]

lemma foldl_metricStep_of_not_mem {α : Type} (i : Nat)
    (l : List (String × List (Option α))) (acc : List (String × α))
    (n : String) (hn : ∀ p ∈ l, p.1 ≠ n) :
    lookupAL (l.foldl (metricStep i) acc) n = lookupAL acc n := by
  induction l generalizing acc with
  | nil => rfl
  | cons p l ih =>
    rw [List.foldl_cons]
    rw [ih _ (fun q hq => hn q (by simp [hq]))]
    have hp : p.1 ≠ n := hn p (by simp)
    simp only [metricStep]
    cases p.2.getD i none with
    | none => rfl
    | some v => exact lookupAL_insertAL_ne acc n p.1 v hp

lemma metricsAt_lookup {α : Type} (named : List (String × List (Option α)))
    (i : Nat) (n : String) (d : List (Option α))
    (hdist : (named.map Prod.fst).Nodup) (hmem : (n, d) ∈ named)
    (v : α) (hv : d.getD i none = some v) :
    lookupAL (metricsAt named i) n = some v := by
  obtain ⟨pre, post, rfl⟩ := List.mem_iff_append.mp hmem
  have hpost : ∀ p ∈ post, p.1 ≠ n := by
    intro p hp
    have : (pre.map Prod.fst ++ n :: post.map Prod.fst).Nodup := by
      simpa using hdist
    have hn : n ∉ post.map Prod.fst :=
      fun hmem2 => ((List.nodup_append.mp this).2.1 |> List.nodup_cons.mp).1 hmem2
    intro he
    exact hn (by simpa [he] using List.mem_map_of_mem Prod.fst hp)
  simp only [metricsAt, List.foldl_append, List.foldl_cons]
  rw [foldl_metricStep_of_not_mem i post _ n hpost]
  simp only [metricStep, hv]
  exact lookupAL_insertAL_self _ n v

/-- C8: the present values of a row's metric are recorded in the cell's
metric map under the metric's own name when that name is non-empty;
otherwise the `k`-th unnamed metric records them under the row's `k`-th
default metric name (assuming the row's effective metric names are
distinct; spec §4.3 metric map rule makes later metrics overwrite
otherwise). -/
theorem inflateRow_metric_naming (α : Type) (row : Row α) (rs : List Int)
    (named : List (String × List (Option α))) (cs : List (Cell α))
    (hrs : inflateResults row.results = Except.ok rs)
    (hnm : expandMetrics row.metric row.metrics = Except.ok named)
    (hcs : inflateRow row = Except.ok cs)
    (hdist : (named.map Prod.fst).Nodup)
    (j : Nat) (m : Metric α) (hm : row.metrics[j]? = some m)
    (d : List (Option α)) (hd : inflateMetric m = Except.ok d)
    (n : String)
    (hn : (m.name ≠ "" ∧ n = m.name) ∨
      (m.name = "" ∧
        row.metric[(row.metrics.take j).countP (fun mm => mm.name = "")]? = some n))
    (i : Nat) (c : Cell α) (hc : cs[i]? = some c)
    (v : α) (hv : d.getD i none = some v) :
    lookupAL c.metrics n = some v := by
  have hres := resolveNames_getElem row.metric row.metrics 0 j m hm
  have heff : (resolveNames row.metric row.metrics 0)[j]? = some (some n, m) := by
    rcases hn with ⟨hne, rfl⟩ | ⟨he, hdef⟩
    · rw [hres, if_pos hne]
    · rw [hres, if_neg (by simp [he])]
      simp only [Nat.zero_add]
      rw [hdef]
  obtain ⟨out, hout, rfl⟩ := expandMetrics_ok row.metric row.metrics named hnm
  obtain ⟨b, hb, hbj⟩ := mapExcept_ok_getElem _ _ out hout j (some n, m) heff
  rw [hd] at hb
  obtain rfl : (some n, d) = b := Except.ok.inj hb
  have hmem : (n, d) ∈ List.filterMap (fun p => p.1.map (fun nn => (nn, p.2))) out :=
    List.mem_filterMap.mpr ⟨(some n, d), List.getElem?_mem hbj, rfl⟩
  obtain ⟨res, hres2, rfl⟩ :=
    inflateRow_getElem row rs _ cs hrs hnm hcs i c hc
  simp only [buildCell]
  exact metricsAt_lookup _ i n d hdist hmem v hv

/-- Witness for C8 on the `TestInflateRow` row "find metric name from row
when missing": the unnamed metric's value 7 is recorded under the row
default name "found-it". -/
theorem inflateRow_metric_naming_witness :
    lookupAL
        (({ result := passCode, metrics := [("found-it", (7 : Rat))] } :
          Cell Rat)).metrics "found-it" = some 7 :=
  inflateRow_metric_naming Rat
    { name := "", results := [passCode, 1], cellIds := [""], messages := [""],
      icons := [""], metric := ["found-it"],
      metrics := [{ name := "", indices := [0, 1], values := [7] }] }
    [passCode] [("found-it", [some 7])]
    [{ result := passCode, metrics := [("found-it", (7 : Rat))] }]
    rfl rfl rfl (by simp)
    0 { name := "", indices := [0, 1], values := [7] } rfl
    [some 7] rfl "found-it" (Or.inr ⟨rfl, rfl⟩)
    0 { result := passCode, metrics := [("found-it", (7 : Rat))] } rfl
    7 rfl

/-! ## The window walk (spec §4.4) -/

lemma snd_mem_of_mem_enumFrom {α : Type} (p : Nat × α) :
    ∀ (i : Nat) (cs : List α), p ∈ List.enumFrom i cs → p.2 ∈ cs
  | _, [], h => by simp [List.enumFrom] at h
  | i, c :: cs, h => by
    rw [List.enumFrom_cons] at h
    rcases List.mem_cons.mp h with h1 | h2
    · simp [h1]
    · exact List.mem_cons_of_mem _ (snd_mem_of_mem_enumFrom p (i + 1) cs h2)

lemma walkColumns_eq_filter {α : Type} [DecidableEq α]
    (rcs : List (String × List (Cell α))) (lo hi : Int) :
    ∀ (cols : List Column) (i : Nat),
      cols.Pairwise (fun a b => b.started ≤ a.started) →
      walkColumns rcs lo hi cols i =
        ((List.enumFrom i cols).filter (fun p => inWindow lo hi p.2)).map
          (fun p => { column := p.2, cells := cellsAt rcs p.1 })
  | [], _, _ => rfl
  | c :: cs, i, hs => by
    obtain ⟨hc, hcs⟩ := List.pairwise_cons.mp hs
    have ihyp := walkColumns_eq_filter rcs lo hi cs (i + 1) hcs
    rw [List.enumFrom_cons]
    by_cases h1 : c.started ≥ (hi + 1) * 1000
    · have hw : inWindow lo hi c = false := by
        simp only [inWindow, Bool.and_eq_false_iff, decide_eq_false_iff_not]
        right
        omega
      simp only [walkColumns, if_pos h1, List.filter_cons, hw, if_false]
      simp only [Bool.false_eq_true, if_false]
      exact ihyp
    · by_cases h2 : c.started < lo * 1000
      · have hnil :
            List.filter (fun p => inWindow lo hi p.2)
              ((i, c) :: List.enumFrom (i + 1) cs) = [] := by
          rw [List.filter_eq_nil_iff]
          intro p hp
          rcases List.mem_cons.mp hp with rfl | hmem
          · simp only [inWindow, Bool.and_eq_true, decide_eq_true_eq, not_and]
            intro hlo
            omega
          · have hle : p.2.started ≤ c.started :=
              hc p.2 (snd_mem_of_mem_enumFrom p (i + 1) cs hmem)
            simp only [inWindow, Bool.and_eq_true, decide_eq_true_eq, not_and]
            intro hlo
            omega
        simp only [walkColumns, if_neg h1, if_pos h2, hnil, List.map_nil]
      · have hw : inWindow lo hi c = true := by
          simp only [inWindow, Bool.and_eq_true, decide_eq_true_eq]
          omega
        simp only [walkColumns, if_neg h1, if_neg h2, List.filter_cons, hw,
          if_true, List.map_cons]
        exact congrArg _ ihyp

/-- C1 is false as stated: with bounds `earliest = 0` and `latest = 1`
(seconds), the column started at `t = 1999` ms survives `inflateGrid`
although `t > latest·1000 = 1000` — the upper comparison is at second
granularity, not at `latest_ms`. -/
theorem inflateGrid_window_cex :
    inflateGrid (α := Rat)
        { columns :=
            [{ build := "b", name := "", started := 1999, extra := [], hotlistIds := "" }],
          rows := [] } 0 1 =
      Except.ok
        [{ column :=
             { build := "b", name := "", started := 1999, extra := [], hotlistIds := "" },
           cells := [] }] ∧
      (1999 : Int) > 1 * 1000 := by
  exact ⟨rfl, by norm_num⟩

/-- C1 (amended): for every grid whose columns are sorted by start time
descending and whose rows all inflate to the column count, `inflateGrid`
returns exactly the InflatedColumns of the columns whose start time `t`
(ms) satisfies `earliest·1000 ≤ t < (latest+1)·1000` — the lower bound
inclusive at millisecond precision, the upper cutoff rounded up to the end
of the `latest` second, so `t = latest·1000 + 999` still survives — in
newest-first input order; and the surviving indices form a contiguous
range. -/
theorem inflateGrid_window (α : Type) [DecidableEq α] (g : Grid α)
    (lo hi : Int) (rcs : List (String × List (Cell α)))
    (hsorted : g.columns.Pairwise (fun a b => b.started ≤ a.started))
    (hrows : inflateGridRows g = Except.ok rcs) :
    inflateGrid g lo hi =
      Except.ok ((g.columns.enum.filter (fun p => inWindow lo hi p.2)).map
        (fun p => { column := p.2, cells := cellsAt rcs p.1 })) ∧
      (∀ (a b c : Nat) (ca cb cc : Column), a ≤ b → b ≤ c →
        g.columns[a]? = some ca → g.columns[b]? = some cb →
        g.columns[c]? = some cc →
        inWindow lo hi ca = true → inWindow lo hi cc = true →
        inWindow lo hi cb = true) := by
  constructor
  · simp only [inflateGrid, hrows]
    rw [walkColumns_eq_filter rcs lo hi g.columns 0 hsorted]
    rfl
  · have hmono : ∀ (x y : Nat) (hx : x < g.columns.length)
        (hy : y < g.columns.length), x ≤ y →
        (g.columns[y]).started ≤ (g.columns[x]).started := by
      intro x y hx hy hxy
      rcases Nat.lt_or_ge x y with hlt | hge
      · exact List.pairwise_iff_getElem.mp hsorted x y hx hy hlt
      · obtain rfl : x = y := Nat.le_antisymm hxy hge
        exact le_refl _
    intro a b c ca cb cc hab hbc ha hb hc hwa hwc
    obtain ⟨hal, rfl⟩ := List.getElem?_eq_some.mp ha
    obtain ⟨hbl, rfl⟩ := List.getElem?_eq_some.mp hb
    obtain ⟨hcl, rfl⟩ := List.getElem?_eq_some.mp hc
    have h1 := hmono a b hal hbl hab
    have h2 := hmono b c hbl hcl hbc
    simp only [inWindow, Bool.and_eq_true, decide_eq_true_eq] at hwa hwc ⊢
    omega

/-- Sorted grid used to witness the amended C1. -/
def c1wGrid : Grid Rat :=
  { columns :=
      [{ build := "a", name := "", started := 1500, extra := [], hotlistIds := "" },
        { build := "b", name := "", started := 500, extra := [], hotlistIds := "" }],
    rows := [] }

/-- Witness for the amended C1 on a concrete two-column sorted grid. -/
theorem inflateGrid_window_witness :
    inflateGrid c1wGrid 0 1 =
      Except.ok ((c1wGrid.columns.enum.filter (fun p => inWindow 0 1 p.2)).map
        (fun p =>
          { column := p.2,
            cells := cellsAt ([] : List (String × List (Cell Rat))) p.1 })) ∧
      (∀ (a b c : Nat) (ca cb cc : Column), a ≤ b → b ≤ c →
        c1wGrid.columns[a]? = some ca → c1wGrid.columns[b]? = some cb →
        c1wGrid.columns[c]? = some cc →
        inWindow 0 1 ca = true → inWindow 0 1 cc = true →
        inWindow 0 1 cb = true) :=
  inflateGrid_window Rat c1wGrid 0 1 [] (by decide) rfl

/-! ## Scenario C (spec §8, `TestInflateGrid` "drop latest columns") -/

/-- The "hello" row of Scenario C: one `RUNNING`, `PASS`, `FAIL`, `FLAKY`
column each. -/
def scenCHello : Row Rat :=
  { name := "hello"
    results := [runningCode, 1, passCode, 1, failCode, 1, flakyCode, 1]
    cellIds := List.replicate 4 ""
    messages := List.replicate 4 ""
    icons := List.replicate 4 ""
    metric := []
    metrics := [] }

/-- The "world" row of Scenario C: `PASS_WITH_SKIPS` in all four columns. -/
def scenCWorld : Row Rat :=
  { name := "world"
    results := [passWithSkipsCode, 4]
    cellIds := List.replicate 4 ""
    messages := List.replicate 4 ""
    icons := List.replicate 4 ""
    metric := []
    metrics := [] }

/-- Scenario C column at `millis(hour23)`; `w` is the base time in seconds
(`time.Now().Round(time.Hour)` in the test). -/
def scenCCol1 (w : Int) : Column :=
  { build := "latest1", name := "", started := (w + 3600 * 23) * 1000,
    extra := [], hotlistIds := "" }

/-- Scenario C column at `millis(hour20) + 1000`. -/
def scenCCol2 (w : Int) : Column :=
  { build := "latest2", name := "", started := (w + 3600 * 20) * 1000 + 1000,
    extra := [], hotlistIds := "" }

/-- Scenario C column at `millis(hour20) + 999`. -/
def scenCCol3 (w : Int) : Column :=
  { build := "keep1", name := "", started := (w + 3600 * 20) * 1000 + 999,
    extra := [], hotlistIds := "" }

/-- Scenario C column at `millis(hour10)`. -/
def scenCCol4 (w : Int) : Column :=
  { build := "keep2", name := "", started := (w + 3600 * 10) * 1000,
    extra := [], hotlistIds := "" }

/-- The four-column, two-row Scenario C grid. -/
def scenCGrid (w : Int) : Grid Rat :=
  { columns := [scenCCol1 w, scenCCol2 w, scenCCol3 w, scenCCol4 w]
    rows := [scenCHello, scenCWorld] }

/-- The inflated rows of the Scenario C grid. -/
def scenCCells : List (String × List (Cell Rat)) :=
  [("hello",
      [{ result := runningCode }, { result := passCode },
        { result := failCode }, { result := flakyCode }]),
    ("world",
      [{ result := passWithSkipsCode }, { result := passWithSkipsCode },
        { result := passWithSkipsCode }, { result := passWithSkipsCode }])]

/-- Go's zero `time.Time` in Unix seconds (the unbounded `earliest` the
test passes). -/
def zeroTimeSec : Int := -62135596800

/-- C2: on the Scenario C grid — columns started at `millis(hour23)`,
`millis(hour20)+1000`, `millis(hour20)+999` and `millis(hour10)`, with
`latest = hour20` and `earliest` unbounded — `inflateGrid` returns exactly
two InflatedColumns: the column one millisecond past the cutoff
(`millis(hour20)+1000`) is dropped, while the columns at
`millis(hour20)+999` and `millis(hour10)` are kept, in that order. -/
theorem inflateGrid_dropLatest (w : Int) (hw : 0 ≤ w) :
    inflateGrid (scenCGrid w) zeroTimeSec (w + 3600 * 20) =
      Except.ok
        [{ column := scenCCol3 w,
           cells := [("hello", { result := failCode }),
             ("world", { result := passWithSkipsCode })] },
          { column := scenCCol4 w,
            cells := [("hello", { result := flakyCode }),
              ("world", { result := passWithSkipsCode })] }] := by
  have hrows : inflateGridRows (scenCGrid w) = Except.ok scenCCells := rfl
  have hsorted :
      (scenCGrid w).columns.Pairwise (fun a b => b.started ≤ a.started) := by
    simp [scenCGrid, scenCCol1, scenCCol2, scenCCol3, scenCCol4,
      List.pairwise_cons]
    omega
  have h1 : inWindow zeroTimeSec (w + 3600 * 20) (scenCCol1 w) = false := by
    simp only [inWindow, scenCCol1, Bool.and_eq_false_iff,
      decide_eq_false_iff_not]
    right
    omega
  have h2 : inWindow zeroTimeSec (w + 3600 * 20) (scenCCol2 w) = false := by
    simp only [inWindow, scenCCol2, Bool.and_eq_false_iff,
      decide_eq_false_iff_not]
    right
    omega
  have h3 : inWindow zeroTimeSec (w + 3600 * 20) (scenCCol3 w) = true := by
    simp only [inWindow, scenCCol3, Bool.and_eq_true, decide_eq_true_eq,
      zeroTimeSec]
    omega
  have h4 : inWindow zeroTimeSec (w + 3600 * 20) (scenCCol4 w) = true := by
    simp only [inWindow, scenCCol4, Bool.and_eq_true, decide_eq_true_eq,
      zeroTimeSec]
    omega
  simp only [inflateGrid, hrows]
  rw [walkColumns_eq_filter scenCCells zeroTimeSec (w + 3600 * 20)
    (scenCGrid w).columns 0 hsorted]
  simp only [scenCGrid, List.enumFrom, List.filter, h1, h2, h3, h4,
    List.map]
  rfl

/-- Witness for C2 at base time `w = 0`. -/
theorem inflateGrid_dropLatest_witness :
    inflateGrid (scenCGrid 0) zeroTimeSec (0 + 3600 * 20) =
      Except.ok
        [{ column := scenCCol3 0,
           cells := [("hello", { result := failCode }),
             ("world", { result := passWithSkipsCode })] },
          { column := scenCCol4 0,
            cells := [("hello", { result := flakyCode }),
              ("world", { result := passWithSkipsCode })] }] :=
  inflateGrid_dropLatest 0 (by norm_num)

/-! ## Sparse elision (spec §4.4 step 2c, claim C10) -/

lemma cellsAt_ne_zero {α : Type} [DecidableEq α] (i : Nat) :
    ∀ (rcs : List (String × List (Cell α))) (p : String × Cell α),
      p ∈ cellsAt rcs i → p.2 ≠ zeroCell α
  | [], p, hp => by simp [cellsAt] at hp
  | r :: rest, p, hp => by
    have htail := cellsAt_ne_zero i rest p
    cases hr : r.2[i]? with
    | none =>
      simp only [cellsAt, List.foldr_cons, hr] at hp
      exact htail hp
    | some c =>
      simp only [cellsAt, List.foldr_cons, hr] at hp
      by_cases hz : c = zeroCell α
      · rw [if_pos hz] at hp
        exact htail hp
      · rw [if_neg hz] at hp
        rcases List.mem_cons.mp hp with rfl | hmem
        · exact hz
        · exact htail hmem

lemma walkColumns_cells_mem {α : Type} [DecidableEq α]
    (rcs : List (String × List (Cell α))) (lo hi : Int) :
    ∀ (cols : List Column) (i : Nat) (ic : InflatedColumn α),
      ic ∈ walkColumns rcs lo hi cols i → ∃ j, ic.cells = cellsAt rcs j
  | [], _, ic, h => by simp [walkColumns] at h
  | c :: cs, i, ic, h => by
    simp only [walkColumns] at h
    by_cases h1 : c.started ≥ (hi + 1) * 1000
    · rw [if_pos h1] at h
      exact walkColumns_cells_mem rcs lo hi cs (i + 1) ic h
    · rw [if_neg h1] at h
      by_cases h2 : c.started < lo * 1000
      · rw [if_pos h2] at h
        simp at h
      · rw [if_neg h2] at h
        rcases List.mem_cons.mp h with rfl | hmem
        · exact ⟨i, rfl⟩
        · exact walkColumns_cells_mem rcs lo hi cs (i + 1) ic hmem

/-- C10: no cell map of an InflatedColumn emitted by `inflateGrid` contains
an entry equal to the zero cell (the all-default cell): a row contributes
an entry for a column only if its cell there is non-default. -/
theorem inflateGrid_no_zero_cells (α : Type) [DecidableEq α] (g : Grid α)
    (lo hi : Int) (cols : List (InflatedColumn α))
    (hok : inflateGrid g lo hi = Except.ok cols)
    (ic : InflatedColumn α) (hic : ic ∈ cols)
    (p : String × Cell α) (hp : p ∈ ic.cells) : p.2 ≠ zeroCell α := by
  simp only [inflateGrid] at hok
  cases hr : inflateGridRows g with
  | error e => rw [hr] at hok; exact absurd hok (by simp)
  | ok rcs =>
    rw [hr] at hok
    obtain rfl : walkColumns rcs lo hi g.columns 0 = cols := Except.ok.inj hok
    obtain ⟨j, hj⟩ := walkColumns_cells_mem rcs lo hi g.columns 0 ic hic
    rw [hj] at hp
    exact cellsAt_ne_zero j rcs p hp

/-- One-column, one-row grid used to witness C10. -/
def c10wGrid : Grid Rat :=
  { columns :=
      [{ build := "b", name := "", started := 500, extra := [], hotlistIds := "" }],
    rows :=
      [{ name := "r", results := [passCode, 1], cellIds := [""],
         messages := [""], icons := [""], metric := [], metrics := [] }] }

/-- Witness for C10 on a concrete grid whose single surviving cell is the
non-default `PASS` cell. -/
theorem inflateGrid_no_zero_cells_witness :
    ("r", ({ result := passCode } : Cell Rat)).2 ≠ zeroCell Rat :=
  inflateGrid_no_zero_cells Rat c10wGrid 0 1
    [{ column :=
         { build := "b", name := "", started := 500, extra := [], hotlistIds := "" },
       cells := [("r", { result := passCode })] }]
    rfl
    { column :=
        { build := "b", name := "", started := 500, extra := [], hotlistIds := "" },
      cells := [("r", { result := passCode })] }
    (by simp)
    ("r", { result := passCode }) (by simp)

/-! ## Error propagation (spec §4.4 failure semantics, §7, claim C9) -/

/-- Total value demand of a sparse index stream: the sum of its `run`
components. -/
def sumRuns : List Int → Nat
  | _ :: r :: rest => r.toNat + sumRuns rest
  | _ => 0

lemma inflateResults_error_of_odd :
    ∀ (results : List Int), results.length % 2 = 1 →
      ∃ e, inflateResults results = Except.error e
  | [], h => by simp at h
  | [_], _ => ⟨_, rfl⟩
  | a :: b :: rest, h => by
    have h' : rest.length % 2 = 1 := by
      simp only [List.length_cons] at h
      omega
    by_cases hb : b < 0
    · exact ⟨"negative run-length count", by simp [inflateResults, hb]⟩
    · obtain ⟨e, he⟩ := inflateResults_error_of_odd rest h'
      exact ⟨e, by simp [inflateResults, hb, he]⟩

lemma inflateResults_error_of_negative :
    ∀ (results : List Int) (k : Nat) (n : Int),
      results[2 * k + 1]? = some n → n < 0 →
      ∃ e, inflateResults results = Except.error e
  | [], _, _, h, _ => by simp at h
  | [_], _, _, _, _ => ⟨_, rfl⟩
  | a :: b :: rest, k, n, h, hn => by
    cases k with
    | zero =>
      obtain rfl : b = n := by simpa using h
      exact ⟨"negative run-length count", by simp [inflateResults, hn]⟩
    | succ k =>
      by_cases hb : b < 0
      · exact ⟨"negative run-length count", by simp [inflateResults, hb]⟩
      · have h' : rest[2 * k + 1]? = some n := by
          rw [show 2 * (k + 1) + 1 = 2 * k + 1 + 1 + 1 by ring] at h
          simpa using h
        obtain ⟨e, he⟩ := inflateResults_error_of_negative rest k n h' hn
        exact ⟨e, by simp [inflateResults, hb, he]⟩

lemma inflateMetricAux_error_of_underrun {α : Type} :
    ∀ (acc : List (Option α)) (indices : List Int) (values : List α),
      values.length < sumRuns indices →
      ∃ e, inflateMetricAux acc indices values = Except.error e
  | _, [], vs, h => by
    rw [show sumRuns [] = 0 from rfl] at h
    exact absurd h (Nat.not_lt_zero _)
  | _, [_], _, _ => ⟨_, rfl⟩
  | acc, s :: r :: rest, vs, h => by
    by_cases hz : r.toNat = 0
    · have h' : vs.length < sumRuns rest := by
        rw [show sumRuns (s :: r :: rest) = r.toNat + sumRuns rest from rfl] at h
        omega
      obtain ⟨e, he⟩ := inflateMetricAux_error_of_underrun acc rest vs h'
      exact ⟨e, by simp [inflateMetricAux, hz, he]⟩
    · by_cases hr : vs.length < r.toNat
      · exact ⟨"metric under-run", by simp [inflateMetricAux, hz, hr]⟩
      · have h' : (vs.drop r.toNat).length < sumRuns rest := by
          rw [show sumRuns (s :: r :: rest) = r.toNat + sumRuns rest from rfl] at h
          simp only [List.length_drop]
          omega
        obtain ⟨e, he⟩ := inflateMetricAux_error_of_underrun
          (placeRun acc s.toNat (vs.take r.toNat)) rest (vs.drop r.toNat) h'
        exact ⟨e, by simp [inflateMetricAux, hz, hr, he]⟩

lemma mem_resolveNames {α : Type} (defaults : List String) :
    ∀ (ms : List (Metric α)) (k : Nat) (m : Metric α), m ∈ ms →
      ∃ o, (o, m) ∈ resolveNames defaults ms k
  | [], _, m, hm => by simp at hm
  | m0 :: ms, k, m, hm => by
    by_cases h0 : m0.name = ""
    · have hstep : resolveNames defaults (m0 :: ms) k =
          (defaults[k]?, m0) :: resolveNames defaults ms (k + 1) := by
        cases hd : defaults[k]? with
        | none => simp [resolveNames, h0, hd]
        | some d => simp [resolveNames, h0, hd]
      rcases List.mem_cons.mp hm with rfl | hmem
      · exact ⟨defaults[k]?, by rw [hstep]; exact List.mem_cons_self _ _⟩
      · obtain ⟨o, ho⟩ := mem_resolveNames defaults ms (k + 1) m hmem
        exact ⟨o, by rw [hstep]; exact List.mem_cons_of_mem _ ho⟩
    · rcases List.mem_cons.mp hm with rfl | hmem
      · exact ⟨some m.name, by simp [resolveNames, h0]⟩
      · obtain ⟨o, ho⟩ := mem_resolveNames defaults ms k m hmem
        exact ⟨o, by simp [resolveNames, h0, ho]⟩

lemma mapExcept_error_of_mem {α β : Type} (f : α → Except String β)
    (x : α) (e : String) (hfx : f x = Except.error e) :
    ∀ (l : List α), x ∈ l → ∃ e2, mapExcept f l = Except.error e2
  | [], hx => by simp at hx
  | y :: l, hx => by
    cases hy : f y with
    | error e3 => exact ⟨e3, by simp [mapExcept, hy]⟩
    | ok b =>
      rcases List.mem_cons.mp hx with rfl | hmem
      · rw [hy] at hfx
        exact absurd hfx (by simp)
      · obtain ⟨e2, he2⟩ := mapExcept_error_of_mem f x e hfx l hmem
        exact ⟨e2, by simp [mapExcept, hy, he2]⟩

lemma inflateRow_error_of_results {α : Type} (row : Row α) (e : String)
    (h : inflateResults row.results = Except.error e) :
    inflateRow row = Except.error e := by
  simp [inflateRow, h]

lemma expandMetrics_error_of_underrun {α : Type} (defaults : List String)
    (ms : List (Metric α)) (m : Metric α) (hm : m ∈ ms)
    (hu : m.values.length < sumRuns m.indices) :
    ∃ e, expandMetrics defaults ms = Except.error e := by
  obtain ⟨e, he⟩ := inflateMetricAux_error_of_underrun [] m.indices m.values hu
  obtain ⟨o, ho⟩ := mem_resolveNames defaults ms 0 m hm
  have hf : ((inflateMetric ((o, m) : Option String × Metric α).2).map
      (fun dense => ((o, m).1, dense))) = Except.error e := by
    simp [inflateMetric, he, Except.map]
  obtain ⟨e2, he2⟩ :=
    mapExcept_error_of_mem
      (fun p => (inflateMetric p.2).map (fun dense => (p.1, dense)))
      (o, m) e hf (resolveNames defaults ms 0) ho
  exact ⟨e2, by simp [expandMetrics, he2]⟩

lemma inflateRow_error_of_metrics {α : Type} (row : Row α) (e : String)
    (h : expandMetrics row.metric row.metrics = Except.error e) :
    ∃ e2, inflateRow row = Except.error e2 := by
  cases hres : inflateResults row.results with
  | error e3 => exact ⟨e3, by simp [inflateRow, hres]⟩
  | ok rs => exact ⟨e, by simp [inflateRow, hres, h]⟩

lemma inflateGrid_error_of_row_error {α : Type} [DecidableEq α] (g : Grid α)
    (lo hi : Int) (r : Row α) (hr : r ∈ g.rows) (e : String)
    (hre : inflateRow r = Except.error e) :
    ∃ e2, inflateGrid g lo hi = Except.error e2 := by
  have hf : inflateRowChecked g.columns.length r = Except.error e := by
    simp [inflateRowChecked, hre]
  obtain ⟨e2, he2⟩ :=
    mapExcept_error_of_mem (inflateRowChecked g.columns.length) r e hf g.rows hr
  exact ⟨e2, by simp [inflateGrid, inflateGridRows, he2]⟩

/-- C9: a grid containing malformed input in some row — an odd-length
result stream, a negative run-length count, or a metric whose sparse pairs
demand more values than its value stream provides — makes grid inflation
abort: a single error reaches the caller of `inflateGrid` and no partial
InflatedColumn list is returned. -/
theorem inflateGrid_aborts_on_malformed (α : Type) [DecidableEq α]
    (g : Grid α) (lo hi : Int) (r : Row α) (hr : r ∈ g.rows)
    (hbad : r.results.length % 2 = 1 ∨
      (∃ k n, r.results[2 * k + 1]? = some n ∧ n < 0) ∨
      (∃ m ∈ r.metrics, m.values.length < sumRuns m.indices)) :
    ∃ e, inflateGrid g lo hi = Except.error e := by
  have hrow : ∃ e, inflateRow r = Except.error e := by
    rcases hbad with hodd | ⟨k, n, hkn, hneg⟩ | ⟨m, hm, hu⟩
    · obtain ⟨e, he⟩ := inflateResults_error_of_odd r.results hodd
      exact ⟨e, inflateRow_error_of_results r e he⟩
    · obtain ⟨e, he⟩ := inflateResults_error_of_negative r.results k n hkn hneg
      exact ⟨e, inflateRow_error_of_results r e he⟩
    · obtain ⟨e, he⟩ := expandMetrics_error_of_underrun r.metric r.metrics m hm hu
      exact inflateRow_error_of_metrics r e he
  obtain ⟨e, he⟩ := hrow
  exact inflateGrid_error_of_row_error g lo hi r hr e he

/-- Witness for C9 on a one-row grid whose result stream `[5]` has odd
length. -/
theorem inflateGrid_aborts_on_malformed_witness :
    ∃ e,
      inflateGrid (α := Rat)
        { columns := [],
          rows :=
            [{ name := "bad", results := [5], cellIds := [], messages := [],
               icons := [], metric := [], metrics := [] }] }
        0 1 = Except.error e :=
  inflateGrid_aborts_on_malformed Rat
    { columns := [],
      rows :=
        [{ name := "bad", results := [5], cellIds := [], messages := [],
           icons := [], metric := [], metrics := [] }] }
    0 1
    { name := "bad", results := [5], cellIds := [], messages := [],
      icons := [], metric := [], metrics := [] }
    (by simp) (Or.inl (by decide))

/-! ## Sparse metric expansion (spec §4.2, claim C7) -/

/-- `(start, run)` pairs flattened into the wire form of `Metric.Indices`. -/
def flatNatPairs : List (Nat × Nat) → List Int
  | [] => []
  | p :: ps => (p.1 : Int) :: (p.2 : Int) :: flatNatPairs ps

/-- Pairs taken in order (spec §4.2): each pair starts at or after the end
of the previous covered range. -/
def orderedFrom : Nat → List (Nat × Nat) → Bool
  | _, [] => true
  | pos, p :: ps => decide (pos ≤ p.1) && orderedFrom (p.1 + p.2) ps

/-- Total value demand of `(start, run)` pairs. -/
def sumRunsN : List (Nat × Nat) → Nat
  | [] => 0
  | p :: ps => p.2 + sumRunsN ps

/-- End of the last covered range, starting from `pos`; pairs with a zero
run cover nothing and are skipped. -/
def lastEnd : Nat → List (Nat × Nat) → Nat
  | pos, [] => pos
  | pos, p :: ps => if p.2 = 0 then lastEnd pos ps else lastEnd (p.1 + p.2) ps

/-- The dense sequence the spec describes (spec §4.2): for each pair in
order, absent values up to its start, then the next `run` values consumed
from the value stream; a pair with `run = 0` is skipped and contributes
nothing. -/
def denseSegs {α : Type} : Nat → List (Nat × Nat) → List α → List (Option α)
  | _, [], _ => []
  | pos, p :: ps, V =>
    if p.2 = 0 then denseSegs pos ps V
    else
      List.replicate (p.1 - pos) none ++ (V.take p.2).map some ++
        denseSegs (p.1 + p.2) ps (V.drop p.2)

lemma orderedFrom_mono :
    ∀ (ps : List (Nat × Nat)) (p q : Nat), p ≤ q →
      orderedFrom q ps = true → orderedFrom p ps = true
  | [], _, _, _, _ => rfl
  | pr :: ps, p, q, hpq, h => by
    simp only [orderedFrom, Bool.and_eq_true, decide_eq_true_eq] at h ⊢
    exact ⟨le_trans hpq h.1, h.2⟩

lemma overwriteFront_nil {α : Type} :
    ∀ (vs : List α), overwriteFront ([] : List (Option α)) vs = vs.map some
  | [] => rfl
  | v :: vs => by
    simp only [overwriteFront, List.map_cons]
    rw [overwriteFront_nil vs]

lemma placeRun_of_le {α : Type} :
    ∀ (l : List (Option α)) (s : Nat) (vs : List α), l.length ≤ s →
      placeRun l s vs =
        l ++ List.replicate (s - l.length) none ++ vs.map some
  | [], 0, vs, _ => by
    simp [placeRun, overwriteFront_nil]
  | x :: l, 0, vs, h => by simp at h
  | [], s + 1, vs, _ => by
    simp only [placeRun, List.length_nil, Nat.sub_zero]
    rw [placeRun_of_le [] s vs (Nat.zero_le s)]
    simp [List.replicate_succ]
  | x :: l, s + 1, vs, h => by
    simp only [placeRun, List.length_cons]
    rw [placeRun_of_le l s vs (Nat.le_of_succ_le_succ h)]
    simp [Nat.succ_sub_succ]

lemma inflateMetricAux_eq_denseSegs {α : Type} :
    ∀ (ps : List (Nat × Nat)) (acc : List (Option α)) (V : List α),
      orderedFrom acc.length ps = true → sumRunsN ps ≤ V.length →
      inflateMetricAux acc (flatNatPairs ps) V =
        Except.ok (acc ++ denseSegs acc.length ps V)
  | [], acc, V, _, _ => by simp [flatNatPairs, inflateMetricAux, denseSegs]
  | (s, r) :: ps, acc, V, hord, hV => by
    simp only [orderedFrom, Bool.and_eq_true, decide_eq_true_eq] at hord
    obtain ⟨hle, hord'⟩ := hord
    simp only [sumRunsN] at hV
    by_cases hr0 : r = 0
    · subst hr0
      have hstep : inflateMetricAux acc (flatNatPairs ((s, 0) :: ps)) V =
          inflateMetricAux acc (flatNatPairs ps) V := rfl
      have hseg : denseSegs acc.length ((s, 0) :: ps) V =
          denseSegs acc.length ps V := rfl
      rw [hstep, hseg]
      exact inflateMetricAux_eq_denseSegs ps acc V
        (orderedFrom_mono ps acc.length s hle (by simpa using hord'))
        (by omega)
    · have hrV : r ≤ V.length := by omega
      have htake : ((V.take r).map some).length = r := by
        simp [List.length_take, Nat.min_eq_left hrV]
      simp only [flatNatPairs, inflateMetricAux, Int.toNat_natCast]
      rw [if_neg hr0, if_neg (by omega)]
      rw [placeRun_of_le acc s (V.take r) hle]
      have hlen :
          (acc ++ List.replicate (s - acc.length) none ++ (V.take r).map some).length
            = s + r := by
        simp only [List.length_append, List.length_replicate, htake]
        omega
      rw [inflateMetricAux_eq_denseSegs ps _ (V.drop r)
        (by rw [hlen]; exact hord')
        (by simp only [List.length_drop]; omega)]
      rw [hlen]
      have hseg : denseSegs acc.length ((s, r) :: ps) V =
          List.replicate (s - acc.length) none ++ (V.take r).map some ++
            denseSegs (s + r) ps (V.drop r) := by
        simp only [denseSegs]
        rw [if_neg hr0]
      rw [hseg]
      simp [List.append_assoc]

lemma le_lastEnd :
    ∀ (ps : List (Nat × Nat)) (pos : Nat), orderedFrom pos ps = true →
      pos ≤ lastEnd pos ps
  | [], pos, _ => Nat.le_refl pos
  | p :: ps, pos, h => by
    simp only [orderedFrom, Bool.and_eq_true, decide_eq_true_eq] at h
    obtain ⟨hle, h'⟩ := h
    by_cases h0 : p.2 = 0
    · have := le_lastEnd ps pos (orderedFrom_mono ps pos (p.1 + p.2) (by omega) h')
      simp only [lastEnd]
      rw [if_pos h0]
      exact this
    · have := le_lastEnd ps (p.1 + p.2) h'
      simp only [lastEnd]
      rw [if_neg h0]
      omega

lemma denseSegs_length {α : Type} :
    ∀ (ps : List (Nat × Nat)) (pos : Nat) (V : List α),
      orderedFrom pos ps = true → sumRunsN ps ≤ V.length →
      (denseSegs pos ps V).length = lastEnd pos ps - pos
  | [], pos, V, _, _ => by simp [denseSegs, lastEnd]
  | (s, r) :: ps, pos, V, hord, hV => by
    simp only [orderedFrom, Bool.and_eq_true, decide_eq_true_eq] at hord
    obtain ⟨hle, hord'⟩ := hord
    simp only [sumRunsN] at hV
    by_cases hr0 : r = 0
    · subst hr0
      have hseg : denseSegs pos ((s, 0) :: ps) V = denseSegs pos ps V := rfl
      have hl : lastEnd pos ((s, 0) :: ps) = lastEnd pos ps := rfl
      rw [hseg, hl]
      exact denseSegs_length ps pos V
        (orderedFrom_mono ps pos (s + 0) (by omega) hord') (by omega)
    · have hrV : r ≤ V.length := by omega
      have hseg : denseSegs pos ((s, r) :: ps) V =
          List.replicate (s - pos) none ++ (V.take r).map some ++
            denseSegs (s + r) ps (V.drop r) := by
        simp only [denseSegs]
        rw [if_neg hr0]
      have hl : lastEnd pos ((s, r) :: ps) = lastEnd (s + r) ps := by
        simp only [lastEnd]
        rw [if_neg hr0]
      have hrec := denseSegs_length ps (s + r) (V.drop r) hord'
        (by simp only [List.length_drop]; omega)
      have hlast := le_lastEnd ps (s + r) hord'
      rw [hseg, hl]
      simp only [List.length_append, List.length_replicate, List.length_map,
        List.length_take, Nat.min_eq_left hrV, hrec]
      omega

lemma lastEnd_spec :
    ∀ (ps : List (Nat × Nat)) (pos : Nat),
      (ps.filter (fun p => p.2 ≠ 0) = [] → lastEnd pos ps = pos) ∧
      (∀ s r, (ps.filter (fun p => p.2 ≠ 0)).getLast? = some (s, r) →
        lastEnd pos ps = s + r)
  | [], pos => ⟨fun _ => rfl, fun s r h => by simp at h⟩
  | p :: ps, pos => by
    by_cases h0 : p.2 = 0
    · have hfil : (p :: ps).filter (fun q => q.2 ≠ 0) =
          ps.filter (fun q => q.2 ≠ 0) := by
        simp [List.filter_cons, h0]
      have hl : lastEnd pos (p :: ps) = lastEnd pos ps := by
        simp only [lastEnd]
        rw [if_pos h0]
      refine ⟨?_, ?_⟩
      · intro hnil
        rw [hfil] at hnil
        rw [hl]
        exact (lastEnd_spec ps pos).1 hnil
      · intro s r hlastq
        rw [hfil] at hlastq
        rw [hl]
        exact (lastEnd_spec ps pos).2 s r hlastq
    · have hfil : (p :: ps).filter (fun q => q.2 ≠ 0) =
          p :: ps.filter (fun q => q.2 ≠ 0) := by
        simp [List.filter_cons, h0]
      have hl : lastEnd pos (p :: ps) = lastEnd (p.1 + p.2) ps := by
        simp only [lastEnd]
        rw [if_neg h0]
      refine ⟨?_, ?_⟩
      · intro hnil
        rw [hfil] at hnil
        exact absurd hnil (by simp)
      · intro s r hlastq
        rw [hfil] at hlastq
        rw [hl]
        cases hfp : ps.filter (fun q => q.2 ≠ 0) with
        | nil =>
          rw [hfp] at hlastq
          obtain rfl : p = (s, r) := by simpa using hlastq
          exact (lastEnd_spec ps ((s, r).1 + (s, r).2)).1 hfp
        | cons q l =>
          rw [hfp, List.getLast?_cons_cons, ← hfp] at hlastq
          exact (lastEnd_spec ps (p.1 + p.2)).2 s r hlastq

lemma orderedFrom_le_start :
    ∀ (ps : List (Nat × Nat)) (q : Nat) (j : Nat) (s r : Nat),
      orderedFrom q ps = true → ps[j]? = some (s, r) → q ≤ s
  | [], _, j, _, _, _, hj => by simp at hj
  | p :: ps, q, 0, s, r, h, hj => by
    obtain rfl : p = (s, r) := by simpa using hj
    simp only [orderedFrom, Bool.and_eq_true, decide_eq_true_eq] at h
    exact h.1
  | p :: ps, q, j + 1, s, r, h, hj => by
    simp only [orderedFrom, Bool.and_eq_true, decide_eq_true_eq] at h
    have := orderedFrom_le_start ps (p.1 + p.2) j s r h.2 (by simpa using hj)
    omega

lemma denseSegs_getElem_covered {α : Type} :
    ∀ (ps : List (Nat × Nat)) (pos : Nat) (V : List α),
      orderedFrom pos ps = true → sumRunsN ps ≤ V.length →
      ∀ (j s r t : Nat), ps[j]? = some (s, r) → t < r →
        (denseSegs pos ps V)[s + t - pos]? =
          (V[sumRunsN (ps.take j) + t]?).map some
  | [], _, _, _, _, j, _, _, _, hj, _ => by simp at hj
  | (s0, r0) :: ps, pos, V, hord, hV, j, s, r, t, hj, ht => by
    simp only [orderedFrom, Bool.and_eq_true, decide_eq_true_eq] at hord
    obtain ⟨hle, hord'⟩ := hord
    simp only [sumRunsN] at hV
    by_cases hr0 : r0 = 0
    · subst hr0
      have hseg : denseSegs pos ((s0, 0) :: ps) V = denseSegs pos ps V := rfl
      rw [hseg]
      cases j with
      | zero =>
        obtain ⟨rfl, rfl⟩ : s0 = s ∧ 0 = r := by simpa using hj
        exact absurd ht (by omega)
      | succ j =>
        have hj' : ps[j]? = some (s, r) := by simpa using hj
        have hord2 : orderedFrom pos ps = true :=
          orderedFrom_mono ps pos (s0 + 0) (by omega) hord'
        have hrhs : sumRunsN (((s0, 0) :: ps).take (j + 1)) =
            sumRunsN (ps.take j) := by
          simp [List.take_succ_cons, sumRunsN]
        rw [hrhs]
        exact denseSegs_getElem_covered ps pos V hord2 (by omega) j s r t hj' ht
    · have hr0V : r0 ≤ V.length := by omega
      have hrep : (List.replicate (s0 - pos) (none : Option α)).length = s0 - pos :=
        List.length_replicate _ _
      have hmap : ((V.take r0).map some).length = r0 := by
        simp [List.length_take, Nat.min_eq_left hr0V]
      have hseg : denseSegs pos ((s0, r0) :: ps) V =
          List.replicate (s0 - pos) none ++ (V.take r0).map some ++
            denseSegs (s0 + r0) ps (V.drop r0) := by
        simp only [denseSegs]
        rw [if_neg hr0]
      cases j with
      | zero =>
        obtain ⟨rfl, rfl⟩ : s0 = s ∧ r0 = r := by simpa using hj
        have hidx : s0 + t - pos = (s0 - pos) + t := by omega
        have hrhs : sumRunsN ((((s0, r0) : Nat × Nat) :: ps).take 0) + t = t := by
          simp [sumRunsN]
        rw [hseg, hidx, hrhs]
        rw [List.append_assoc]
        rw [List.getElem?_append_right (by rw [hrep]; omega)]
        rw [hrep, Nat.add_sub_cancel_left]
        rw [List.getElem?_append_left (by rw [hmap]; omega)]
        rw [List.getElem?_map]
        rw [List.getElem?_take]
        rw [if_pos ht]
      | succ j =>
        have hj' : ps[j]? = some (s, r) := by simpa using hj
        have hs : s0 + r0 ≤ s := orderedFrom_le_start ps (s0 + r0) j s r hord' hj'
        have hidx : s + t - pos = (s0 - pos) + (r0 + (s + t - (s0 + r0))) := by
          omega
        have hrhs : sumRunsN (((s0, r0) :: ps).take (j + 1)) =
            r0 + sumRunsN (ps.take j) := by
          simp [List.take_succ_cons, sumRunsN]
        rw [hseg, hidx, hrhs]
        rw [List.append_assoc]
        rw [List.getElem?_append_right (by rw [hrep]; omega)]
        rw [hrep, Nat.add_sub_cancel_left]
        rw [List.getElem?_append_right (by rw [hmap]; omega)]
        rw [hmap, Nat.add_sub_cancel_left]
        have hrec := denseSegs_getElem_covered ps (s0 + r0) (V.drop r0) hord'
          (by simp only [List.length_drop]; omega) j s r t hj' ht
        rw [hrec]
        rw [List.getElem?_drop]
        have : r0 + (sumRunsN (ps.take j) + t) =
            r0 + sumRunsN (ps.take j) + t := by omega
        rw [this]

lemma denseSegs_getElem_uncovered {α : Type} :
    ∀ (ps : List (Nat × Nat)) (pos : Nat) (V : List α),
      orderedFrom pos ps = true → sumRunsN ps ≤ V.length →
      ∀ p : Nat, pos ≤ p → p - pos < (denseSegs pos ps V).length →
        (∀ (j s r : Nat), ps[j]? = some (s, r) → ¬(s ≤ p ∧ p < s + r)) →
        (denseSegs pos ps V)[p - pos]? = some none
  | [], pos, V, _, _, p, _, hlt, _ => by simp [denseSegs] at hlt
  | (s0, r0) :: ps, pos, V, hord, hV, p, hp, hlt, hnc => by
    simp only [orderedFrom, Bool.and_eq_true, decide_eq_true_eq] at hord
    obtain ⟨hle, hord'⟩ := hord
    simp only [sumRunsN] at hV
    by_cases hr0 : r0 = 0
    · subst hr0
      have hseg : denseSegs pos ((s0, 0) :: ps) V = denseSegs pos ps V := rfl
      rw [hseg] at hlt ⊢
      have hord2 : orderedFrom pos ps = true :=
        orderedFrom_mono ps pos (s0 + 0) (by omega) hord'
      exact denseSegs_getElem_uncovered ps pos V hord2 (by omega) p hp hlt
        (fun j s r hj => hnc (j + 1) s r (by simpa using hj))
    · have hr0V : r0 ≤ V.length := by omega
      have hrep : (List.replicate (s0 - pos) (none : Option α)).length = s0 - pos :=
        List.length_replicate _ _
      have hmap : ((V.take r0).map some).length = r0 := by
        simp [List.length_take, Nat.min_eq_left hr0V]
      have hseg : denseSegs pos ((s0, r0) :: ps) V =
          List.replicate (s0 - pos) none ++ (V.take r0).map some ++
            denseSegs (s0 + r0) ps (V.drop r0) := by
        simp only [denseSegs]
        rw [if_neg hr0]
      have hnc0 : ¬(s0 ≤ p ∧ p < s0 + r0) := hnc 0 s0 r0 (by simp)
      by_cases hps : p < s0
      · have hidx : p - pos < s0 - pos := by omega
        rw [hseg]
        rw [List.append_assoc]
        rw [List.getElem?_append_left (by rw [hrep]; omega)]
        rw [List.getElem?_replicate, if_pos hidx]
      · have hge : s0 + r0 ≤ p := by omega
        have hidx : p - pos = (s0 - pos) + (r0 + (p - (s0 + r0))) := by omega
        rw [hseg] at hlt ⊢
        rw [hidx]
        rw [List.append_assoc]
        rw [List.getElem?_append_right (by rw [hrep]; omega)]
        rw [hrep, Nat.add_sub_cancel_left]
        rw [List.getElem?_append_right (by rw [hmap]; omega)]
        rw [hmap, Nat.add_sub_cancel_left]
        have hlt' : p - (s0 + r0) < (denseSegs (s0 + r0) ps (V.drop r0)).length := by
          simp only [List.length_append, hrep, hmap] at hlt
          omega
        exact denseSegs_getElem_uncovered ps (s0 + r0) (V.drop r0) hord'
          (by simp only [List.length_drop]; omega) p hge hlt'
          (fun j s r hj => hnc (j + 1) s r (by simpa using hj))

/-- C7: for every sparse index stream of pairs `(start, run)` taken in
order and every sufficiently long value stream `V`, `expandMetric` (the
source's `inflateMetric`) yields the dense sequence in which positions
`[start, start+run)` carry the next `run` values consumed from `V`, every
other position up to the last covered index is absent, and the total
length is the largest covered position plus one — the end `start + run` of
the last pair with a positive run (a pair with `run = 0` is skipped and
covers nothing; when every pair has a zero run the output is empty); in
particular, indices `[0,2, 6,4]` with six values yield a length-10 output
with positions 2 through 5 absent. -/
theorem inflateMetric_sparse_expansion (α : Type) (nm : String)
    (ps : List (Nat × Nat)) (V : List α)
    (hord : orderedFrom 0 ps = true) (hV : sumRunsN ps ≤ V.length) :
    inflateMetric { name := nm, indices := flatNatPairs ps, values := V } =
      Except.ok (denseSegs 0 ps V) ∧
    (∀ (j s r t : Nat), ps[j]? = some (s, r) → t < r →
      (denseSegs 0 ps V)[s + t]? = (V[sumRunsN (ps.take j) + t]?).map some) ∧
    (∀ p : Nat, p < (denseSegs 0 ps V).length →
      (∀ (j s r : Nat), ps[j]? = some (s, r) → ¬(s ≤ p ∧ p < s + r)) →
      (denseSegs 0 ps V)[p]? = some none) ∧
    (∀ (s r : Nat), (ps.filter (fun p => p.2 ≠ 0)).getLast? = some (s, r) →
      (denseSegs 0 ps V).length = s + r) ∧
    (ps.filter (fun p => p.2 ≠ 0) = [] → (denseSegs 0 ps V).length = 0) ∧
    (∀ (v1 v2 v3 v4 v5 v6 : α),
      inflateMetric
          { name := nm, indices := [0, 2, 6, 4],
            values := [v1, v2, v3, v4, v5, v6] } =
        Except.ok [some v1, some v2, none, none, none, none, some v3, some v4,
          some v5, some v6]) := by
  refine ⟨?_, ?_, ?_, ?_, ?_, ?_⟩
  · have h := inflateMetricAux_eq_denseSegs ps ([] : List (Option α)) V hord hV
    simpa [inflateMetric] using h
  · intro j s r t hj ht
    have h := denseSegs_getElem_covered ps 0 V hord hV j s r t hj ht
    simpa using h
  · intro p hp hnc
    have h := denseSegs_getElem_uncovered ps 0 V hord hV p (Nat.zero_le p)
      (by simpa using hp) hnc
    simpa using h
  · intro s r hlast
    rw [denseSegs_length ps 0 V hord hV, (lastEnd_spec ps 0).2 s r hlast]
    omega
  · intro hnil
    rw [denseSegs_length ps 0 V hord hV, (lastEnd_spec ps 0).1 hnil]
  · intro v1 v2 v3 v4 v5 v6
    rfl

/-- The sparse pairs of the documented `TestInflateMetic` example. -/
def c7wPairs : List (Nat × Nat) := [(0, 2), (6, 4)]

/-- The value stream of the documented `TestInflateMetic` example. -/
def c7wValues : List Rat := [0.1, 0.2, 6.1, 6.2, 6.3, 6.4]

/-- Witness for C7 at the documented example: indices `[0,2, 6,4]`, values
`[0.1, 0.2, 6.1, 6.2, 6.3, 6.4]`. -/
theorem inflateMetric_sparse_expansion_witness :
    inflateMetric
        { name := "m", indices := flatNatPairs c7wPairs, values := c7wValues } =
      Except.ok (denseSegs 0 c7wPairs c7wValues) ∧
    (∀ (j s r t : Nat), c7wPairs[j]? = some (s, r) → t < r →
      (denseSegs 0 c7wPairs c7wValues)[s + t]? =
        (c7wValues[sumRunsN (c7wPairs.take j) + t]?).map some) ∧
    (∀ p : Nat, p < (denseSegs 0 c7wPairs c7wValues).length →
      (∀ (j s r : Nat), c7wPairs[j]? = some (s, r) → ¬(s ≤ p ∧ p < s + r)) →
      (denseSegs 0 c7wPairs c7wValues)[p]? = some none) ∧
    (∀ (s r : Nat), (c7wPairs.filter (fun p => p.2 ≠ 0)).getLast? = some (s, r) →
      (denseSegs 0 c7wPairs c7wValues).length = s + r) ∧
    (c7wPairs.filter (fun p => p.2 ≠ 0) = [] →
      (denseSegs 0 c7wPairs c7wValues).length = 0) ∧
    (∀ (v1 v2 v3 v4 v5 v6 : Rat),
      inflateMetric
          { name := "m", indices := [0, 2, 6, 4],
            values := [v1, v2, v3, v4, v5, v6] } =
        Except.ok [some v1, some v2, none, none, none, none, some v3, some v4,
          some v5, some v6]) :=
  inflateMetric_sparse_expansion Rat "m" c7wPairs c7wValues (by decide)
    (by decide)

end Testgrid
